import Mathlib

/-!
Shallow embedding of the `lipsum` evaluation core (`src/ast.rs`,
`src/interpreter.rs`): the syntax tree, the value model, the environment and
memoization cache, and the recursive evaluator `eval`, together with theorems
settling the specification claims about them.

Modelling conventions:
* `HashMap<String, Value>` (the `Context` and the `Cache`) is modelled as an
  association list consulted through `assocGet`; `ctxInsert` conses the new
  binding in front, which is observationally the same as `HashMap::insert`
  for a map that is only read through `get` and cloned.
* `Rc<RefCell<Context>>` (a closure's captured environment cell) is modelled
  as an index into an arena `EvalState.envs`; cloning the `Rc` shares the
  index, mutating through the cell updates the arena entry.
* `DefaultHasher` digests are modelled by the exact strings the source feeds
  to the hasher (the `format!` strings of `impl Hash for Value`): the digest
  function of the source is deterministic in that string, so equal strings
  always collide in the source too, which is the only direction the theorems
  below rely on.
* The `panic!` in `impl Hash for Value` at a `Closure` is modelled by the
  dedicated result `HashResult.panics`, and an evaluation that would reach it
  by the outcome `Outcome.panics`.
* Rust recursion is modelled with fuel: `eval fuel …` returns `none` when the
  fuel runs out (the stack-exhaustion case the spec leaves out of scope).
-/

/-- Source location, from `ast.rs` (`Location { start, end, filename }`;
the `end` field is renamed `stop` because `end` is a Lean keyword). -/
structure Location where
  start : Nat
  stop : Nat
  filename : String
deriving DecidableEq

/-- A variable occurrence, from `ast.rs` (`Var { text, location }`). -/
structure Var where
  text : String
  location : Location
deriving DecidableEq

/-- Binary operators, from `ast.rs` (`BinaryOp`). -/
inductive BinaryOp where
  | add
  | sub
  | mul
  | div
  | rem
  | eq
  | neq
  | lt
  | gt
  | lte
  | gte
  | and
  | or
deriving DecidableEq

/-- Syntax nodes, from `ast.rs` (`Term`); each variant inlines the fields of
the corresponding Rust struct (`Let`, `If`, …).  `letE`/`ifE` stand for the
Rust `Let`/`If` variants (Lean keywords), `then_` for `then`. -/
inductive Term where
  | int (value : Int) (location : Location)
  | str (value : String) (location : Location)
  | call (callee : Term) (arguments : List Term) (location : Location)
  | binary (lhs : Term) (op : BinaryOp) (rhs : Term) (location : Location)
  | function (parameters : List Var) (value : Term) (location : Location)
  | letE (name : Var) (value : Term) (next : Term) (location : Location)
  | ifE (condition : Term) (then_ : Term) (otherwise : Term) (location : Location)
  | print (value : Term) (location : Location)
  | first (value : Term) (location : Location)
  | second (value : Term) (location : Location)
  | bool (value : Bool) (location : Location)
  | tuple (first : Term) (second : Term) (location : Location)
  | var (v : Var)

/-- `impl Element for Term` from `ast.rs`: every node exposes its location;
the `Var` variant delegates to the variable's own location. -/
def Term.location : Term → Location
  | .int _ l => l
  | .str _ l => l
  | .call _ _ l => l
  | .binary _ _ _ l => l
  | .function _ _ l => l
  | .letE _ _ _ l => l
  | .ifE _ _ _ l => l
  | .print _ l => l
  | .first _ l => l
  | .second _ l => l
  | .bool _ l => l
  | .tuple _ _ l => l
  | .var v => v.location

/-- `Term::is_pure` from `ast.rs`: shallow purity — `Print` is impure, a
`Function` is as pure as its body, everything else is pure. -/
def Term.is_pure : Term → Bool
  | .function _ value _ => value.is_pure
  | .print _ _ => false
  | _ => true

/-- Runtime values, from `interpreter.rs` (`enum Value`); a closure's
`Rc<RefCell<Context>>` is modelled as an arena index (`context : Nat`). -/
inductive Value where
  | closure (parameters : List Var) (body : Term) (context : Nat)
  | int (value : Int)
  | str (value : String)
  | bool (value : Bool)
  | tuple (first : Value) (second : Value)

/-- `impl Display for Value` from `interpreter.rs`: closures render as the
fixed placeholder, strings verbatim, tuples recursively via display. -/
def Value.display : Value → String
  | .closure _ _ _ => "[closure]"
  | .int n => toString n
  | .str s => s
  | .bool b => toString b
  | .tuple a b => "(" ++ a.display ++ ", " ++ b.display ++ ")"

/-- Whether a value is a `Closure` at top level (the discriminant tested by
`cache_key`). -/
def Value.isClosure : Value → Bool
  | .closure _ _ _ => true
  | _ => false

/-- Result of `impl Hash for Value`: `panics` models the
`panic!("this should never be executed")` arm at a `Closure`; `digest s`
models feeding the format string `s` to the `DefaultHasher`. -/
inductive HashResult where
  | panics
  | digest (d : String)
deriving DecidableEq

/-- `impl Hash for Value` from `interpreter.rs`: a `Closure` panics; every
other kind hashes a `format!` string, and a `Tuple` hashes the string built
from its `Display` form (so tuple components are rendered by display, not
recursively hashed). -/
def hashValue : Value → HashResult
  | .closure _ _ _ => .panics
  | .int n => .digest ("Int(" ++ toString n ++ ")")
  | .str s => .digest ("Str(" ++ s ++ ")")
  | .bool b => .digest ("Bool(" ++ toString b ++ ")")
  | .tuple a b => .digest ("Tuple(" ++ (Value.tuple a b).display ++ ")")

/-- The environment map (`type Context = HashMap<String, Value>`), as an
association list. -/
abbrev Context := List (String × Value)

/-- `HashMap::get`, for `Context` and `Cache` alike: first binding wins. -/
def assocGet : List (String × Value) → String → Option Value
  | [], _ => none
  | (k, v) :: rest, key => if k = key then some v else assocGet rest key

/-- `HashMap::insert` for the environment: the new binding shadows any old
one (observationally equal to replacement under `assocGet`). -/
def ctxInsert (ctx : Context) (name : String) (v : Value) : Context :=
  (name, v) :: ctx

/-- `closure.context.borrow_mut().insert(name, v)`: mutate one captured
environment cell of the arena in place. -/
def patchCell (envs : List Context) (cell : Nat) (name : String) (v : Value) :
    List Context :=
  envs.set cell (ctxInsert (envs.getD cell []) name v)

/-- Deterministic serialization of a `BinaryOp`, used by `reprTerm`. -/
def reprOp : BinaryOp → String
  | .add => "Add"
  | .sub => "Sub"
  | .mul => "Mul"
  | .div => "Div"
  | .rem => "Rem"
  | .eq => "Eq"
  | .neq => "Neq"
  | .lt => "Lt"
  | .gt => "Gt"
  | .lte => "Lte"
  | .gte => "Gte"
  | .and => "And"
  | .or => "Or"

/-- Deterministic serialization of a `Location`, used by `reprTerm`. -/
def reprLoc (l : Location) : String :=
  "Loc(" ++ toString l.start ++ "," ++ toString l.stop ++ "," ++ l.filename ++ ")"

/-- Deterministic serialization of a `Var`, used by `reprTerm`. -/
def reprVar (v : Var) : String :=
  "Var(" ++ v.text ++ "@" ++ reprLoc v.location ++ ")"

mutual

/-- Deterministic serialization of a `Term`: stands in for the derived
`Hash for Term` that `cache_key` feeds to the `DefaultHasher` — the source
digest is a deterministic function of the term's full structural content,
which this string carries. -/
def reprTerm : Term → String
  | .int n l => "Int(" ++ toString n ++ "@" ++ reprLoc l ++ ")"
  | .str s l => "Str(" ++ s ++ "@" ++ reprLoc l ++ ")"
  | .call c args l =>
      "Call(" ++ reprTerm c ++ ";" ++ reprTerms args ++ "@" ++ reprLoc l ++ ")"
  | .binary a op b l =>
      "Binary(" ++ reprTerm a ++ ";" ++ reprOp op ++ ";" ++ reprTerm b ++ "@" ++ reprLoc l ++ ")"
  | .function ps v l =>
      "Function(" ++ String.intercalate ";" (ps.map reprVar) ++ ";" ++ reprTerm v ++ "@" ++ reprLoc l ++ ")"
  | .letE n v nx l =>
      "Let(" ++ reprVar n ++ ";" ++ reprTerm v ++ ";" ++ reprTerm nx ++ "@" ++ reprLoc l ++ ")"
  | .ifE c t e l =>
      "If(" ++ reprTerm c ++ ";" ++ reprTerm t ++ ";" ++ reprTerm e ++ "@" ++ reprLoc l ++ ")"
  | .print v l => "Print(" ++ reprTerm v ++ "@" ++ reprLoc l ++ ")"
  | .first v l => "First(" ++ reprTerm v ++ "@" ++ reprLoc l ++ ")"
  | .second v l => "Second(" ++ reprTerm v ++ "@" ++ reprLoc l ++ ")"
  | .bool b l => "Bool(" ++ toString b ++ "@" ++ reprLoc l ++ ")"
  | .tuple a b l =>
      "Tuple(" ++ reprTerm a ++ ";" ++ reprTerm b ++ "@" ++ reprLoc l ++ ")"
  | .var v => "TVar(" ++ reprVar v ++ ")"

/-- Serialization of an argument list of a `Call` node. -/
def reprTerms : List Term → String
  | [] => ""
  | t :: ts => reprTerm t ++ "," ++ reprTerms ts

end

/-- The per-argument digests of `cache_key` from `interpreter.rs`: walk the
arguments in order; a top-level `Closure` makes the whole computation `None`
(`.ok none`, skip memoization) before anything is hashed; any other value is
hashed — were that hash to panic, the panic would escape (`.error ()`). -/
def argDigests : List Value → Except Unit (Option (List String))
  | [] => .ok (some [])
  | v :: vs =>
    match v with
    | .closure _ _ _ => .ok none
    | v =>
      match hashValue v with
      | .panics => .error ()
      | .digest d =>
        match argDigests vs with
        | .error e => .error e
        | .ok none => .ok none
        | .ok (some ds) => .ok (some (d :: ds))

/-- `cache_key` from `interpreter.rs`: `None` when some argument is a
top-level `Closure`; otherwise a digest of the body's structural identity
combined with the ordered argument digests (the source hashes the pair
`(*body, arguments)`; the digest is modelled by the serialized pair). -/
def cacheKey (body : Term) (args : List Value) : Except Unit (Option String) :=
  match argDigests args with
  | .error e => .error e
  | .ok none => .ok none
  | .ok (some ds) =>
      .ok (some ("Key(" ++ reprTerm body ++ "|" ++ String.intercalate "," ds ++ ")"))

/-- `RuntimeError` from `interpreter.rs`. -/
structure RuntimeError where
  message : String
  full_text : String
  location : Location
deriving DecidableEq

/-- Builds the `InvalidOperand`-class error of the value operations. -/
def invalidOperand (loc : Location) (txt : String) : RuntimeError :=
  { message := "invalid operand", full_text := txt, location := loc }

/-- Modelled from the spec: structural equality of values for `Eq`/`Neq`
(§4.1) — the `eq` method called on `Value` is not under `src/` (only its
callers and tests are).  Tuples compare element-wise; comparing closures is
an `InvalidOperand`-class runtime error (§3, §7), as is an operand-kind
mismatch. -/
def valueEq (l r : Value) (loc : Location) : Except RuntimeError Bool :=
  match l, r with
  | .closure _ _ _, _ => .error (invalidOperand loc "closures cannot be compared")
  | _, .closure _ _ _ => .error (invalidOperand loc "closures cannot be compared")
  | .int a, .int b => .ok (decide (a = b))
  | .str a, .str b => .ok (decide (a = b))
  | .bool a, .bool b => .ok (decide (a = b))
  | .tuple a b, .tuple c d => do
      let x ← valueEq a c loc
      let y ← valueEq b d loc
      .ok (x && y)
  | _, _ => .error (invalidOperand loc "cannot compare values of different kinds")

/-- Modelled from the spec: the strict-order half of the total ordering that
§3 requires on non-closure values (same-kind only; tuples lexicographic;
closures and kind mismatches are `InvalidOperand` errors). -/
def valueLt (l r : Value) (loc : Location) : Except RuntimeError Bool :=
  match l, r with
  | .int a, .int b => .ok (decide (a < b))
  | .str a, .str b => .ok (decide (a < b))
  | .bool a, .bool b => .ok (!a && b)
  | .tuple a b, .tuple c d => do
      let e1 ← valueEq a c loc
      if e1 then valueLt b d loc else valueLt a c loc
  | .closure _ _ _, _ => .error (invalidOperand loc "closures cannot be compared")
  | _, .closure _ _ _ => .error (invalidOperand loc "closures cannot be compared")
  | _, _ => .error (invalidOperand loc "cannot compare values of different kinds")

/-- Modelled from the spec: `Value::binary_op` as called by `eval_binary` is
not under `src/`; §4.1 of the spec defines it.  Arithmetic needs integer
operands, except `Add`, which concatenates when either side is a string
(the other side stringified through its display form); `Div`/`Rem` by zero
is a dedicated `InvalidOperand`-class error; `Eq`/`Neq` use `valueEq`;
the order operators use `valueLt`; `And`/`Or` need booleans (both sides are
already evaluated by `eval_binary`, so there is no short-circuit). -/
def binaryOp (lhs : Value) (op : BinaryOp) (rhs : Value) (loc : Location) :
    Except RuntimeError Value :=
  match op with
  | .add =>
    match lhs, rhs with
    | .int a, .int b => .ok (.int (a + b))
    | .str a, b => .ok (.str (a ++ b.display))
    | a, .str b => .ok (.str (a.display ++ b))
    | _, _ => .error (invalidOperand loc "invalid operands for addition")
  | .sub =>
    match lhs, rhs with
    | .int a, .int b => .ok (.int (a - b))
    | _, _ => .error (invalidOperand loc "invalid operands for subtraction")
  | .mul =>
    match lhs, rhs with
    | .int a, .int b => .ok (.int (a * b))
    | _, _ => .error (invalidOperand loc "invalid operands for multiplication")
  | .div =>
    match lhs, rhs with
    | .int a, .int b =>
        if b = 0 then .error (invalidOperand loc "division by zero")
        else .ok (.int (Int.tdiv a b))
    | _, _ => .error (invalidOperand loc "invalid operands for division")
  | .rem =>
    match lhs, rhs with
    | .int a, .int b =>
        if b = 0 then .error (invalidOperand loc "remainder by zero")
        else .ok (.int (Int.tmod a b))
    | _, _ => .error (invalidOperand loc "invalid operands for remainder")
  | .eq => do
      let b ← valueEq lhs rhs loc
      .ok (.bool b)
  | .neq => do
      let b ← valueEq lhs rhs loc
      .ok (.bool (!b))
  | .lt => do
      let b ← valueLt lhs rhs loc
      .ok (.bool b)
  | .gt => do
      let b ← valueLt rhs lhs loc
      .ok (.bool b)
  | .lte => do
      let b ← valueLt rhs lhs loc
      .ok (.bool (!b))
  | .gte => do
      let b ← valueLt lhs rhs loc
      .ok (.bool (!b))
  | .and =>
    match lhs, rhs with
    | .bool a, .bool b => .ok (.bool (a && b))
    | _, _ => .error (invalidOperand loc "invalid operands for and")
  | .or =>
    match lhs, rhs with
    | .bool a, .bool b => .ok (.bool (a || b))
    | _, _ => .error (invalidOperand loc "invalid operands for or")

/-- Outcome of one evaluation: a value, a `RuntimeError`, or a panic
(reachable in the source only through `impl Hash for Value` at a closure). -/
inductive Outcome where
  | ok (v : Value)
  | err (e : RuntimeError)
  | panics

/-- The mutable state threaded through evaluation: the arena of captured
environment cells (`Rc<RefCell<Context>>`), the memoization `Cache`, and the
ordered output of the `Printer` capability. -/
structure EvalState where
  envs : List Context
  cache : List (String × Value)
  out : List String

/-- Result of one `eval` call: `none` = out of fuel (stack exhaustion);
otherwise the outcome, the caller's context after in-place mutation, and the
threaded state. -/
abbrev EvalRes := Option (Outcome × Context × EvalState)

/-- The shape of `eval` specialized to one fuel level, passed to the
per-node helpers. -/
abbrev EvalFn := Term → Context → EvalState → EvalRes

/-- The `?` operator of the source: continue only on a success value,
propagate errors, panics and out-of-fuel. -/
def andThen (r : EvalRes) (k : Value → Context → EvalState → EvalRes) : EvalRes :=
  match r with
  | none => none
  | some (.ok v, ctx, st) => k v ctx st
  | some (o, ctx, st) => some (o, ctx, st)

/-- `eval_let` from `interpreter.rs`: evaluate the bound value; when it is a
closure, patch the binding `name -> closure` into the closure's own captured
cell and into the enclosing context (self-reference patch); otherwise just
bind it in the enclosing context; then evaluate `next` there. -/
def evalLet (ev : EvalFn) (name : Var) (value next : Term) (ctx : Context)
    (st : EvalState) : EvalRes :=
  andThen (ev value ctx st) fun v ctx1 st1 =>
    match v with
    | .closure ps body cell =>
        let selfv := Value.closure ps body cell
        let st2 := { st1 with envs := patchCell st1.envs cell name.text selfv }
        ev next (ctxInsert ctx1 name.text selfv) st2
    | v => ev next (ctxInsert ctx1 name.text v) st1

/-- `eval_memo` from `interpreter.rs`: a `None` key bypasses the cache; a
`Some` key is looked up — a hit returns the cached value without evaluating
the body, a miss evaluates the body and stores the result. -/
def evalMemo (ev : EvalFn) (body : Term) (args : List Value) (ctx : Context)
    (st : EvalState) : EvalRes :=
  match cacheKey body args with
  | .error _ => some (.panics, ctx, st)
  | .ok none => ev body ctx st
  | .ok (some key) =>
    match assocGet st.cache key with
    | some cached => some (.ok cached, ctx, st)
    | none =>
        andThen (ev body ctx st) fun v ctx1 st1 =>
          some (.ok v, ctx1, { st1 with cache := (key, v) :: st1.cache })

/-- Result of the parameter/argument loop of `eval_call`. -/
inductive ArgsOut where
  | abnormal (o : Outcome) (ctx : Context) (st : EvalState)
  | done (args : List Value) (newCtx : Context) (ctx : Context) (st : EvalState)

/-- The `for (parameter, argument) in parameters.zip(arguments)` loop of
`eval_call`: evaluate each argument in the caller's context, accumulate the
argument values in order, and bind each to its parameter in the fresh
context derived from the closure's cell. -/
def evalParamArgs (ev : EvalFn) :
    List (Var × Term) → Context → Context → EvalState → Option ArgsOut
  | [], newCtx, ctx, st => some (.done [] newCtx ctx st)
  | (p, a) :: rest, newCtx, ctx, st =>
    match ev a ctx st with
    | none => none
    | some (.ok v, ctx1, st1) =>
        match evalParamArgs ev rest (ctxInsert newCtx p.text v) ctx1 st1 with
        | none => none
        | some (.abnormal o c s) => some (.abnormal o c s)
        | some (.done vs nc c s) => some (.done (v :: vs) nc c s)
    | some (o, ctx1, st1) => some (.abnormal o ctx1 st1)

/-- `eval_call` from `interpreter.rs`: the callee must be a closure; the
fresh context is a clone of the closure's captured cell extended with the
zipped parameter/argument bindings (arity mismatch silently truncated by
`zip`); a pure body goes through `eval_memo`, an impure one is evaluated
directly; the fresh context is dropped afterwards. -/
def evalCall (ev : EvalFn) (callee : Term) (argTerms : List Term)
    (loc : Location) (ctx : Context) (st : EvalState) : EvalRes :=
  andThen (ev callee ctx st) fun cv ctx1 st1 =>
    match cv with
    | .closure params body cell =>
        match evalParamArgs ev (params.zip argTerms) (st1.envs.getD cell []) ctx1 st1 with
        | none => none
        | some (.abnormal o c s) => some (o, c, s)
        | some (.done args newCtx ctx2 st2) =>
            match (if body.is_pure then evalMemo ev body args newCtx st2
                   else ev body newCtx st2) with
            | none => none
            | some (o, _, st3) => some (o, ctx2, st3)
    | v => some (.err { message := "invalid function call",
                        full_text := v.display ++ " cannot be called as a function",
                        location := loc }, ctx1, st1)

/-- `eval_if` from `interpreter.rs`: the condition must be a boolean; exactly
one branch is evaluated. -/
def evalIf (ev : EvalFn) (condition then_ otherwise : Term) (ctx : Context)
    (st : EvalState) : EvalRes :=
  andThen (ev condition ctx st) fun cv ctx1 st1 =>
    match cv with
    | .bool true => ev then_ ctx1 st1
    | .bool false => ev otherwise ctx1 st1
    | v => some (.err { message := "invalid if condition",
                        full_text := v.display ++ " can't be used as an if condition. use a boolean instead",
                        location := condition.location }, ctx1, st1)

/-- `eval_binary` from `interpreter.rs`: left side first, then right, then
the value operation. -/
def evalBinary (ev : EvalFn) (lhs : Term) (op : BinaryOp) (rhs : Term)
    (loc : Location) (ctx : Context) (st : EvalState) : EvalRes :=
  andThen (ev lhs ctx st) fun lv ctx1 st1 =>
    andThen (ev rhs ctx1 st1) fun rv ctx2 st2 =>
      match binaryOp lv op rv loc with
      | .ok v => some (.ok v, ctx2, st2)
      | .error e => some (.err e, ctx2, st2)

/-- `eval_var` from `interpreter.rs`: look the name up in the context, with
the `UnboundVariable` error of the source at the variable's own location. -/
def evalVar (v : Var) (ctx : Context) (st : EvalState) : EvalRes :=
  match assocGet ctx v.text with
  | some value => some (.ok value, ctx, st)
  | none => some (.err { message := "unbound variable \"" ++ v.text ++ "\"",
                         full_text := "variable \"" ++ v.text ++ "\" was not defined in the current scope",
                         location := v.location }, ctx, st)

/-- `eval_tuple` from `interpreter.rs`: first component, then second. -/
def evalTuple (ev : EvalFn) (first second : Term) (ctx : Context)
    (st : EvalState) : EvalRes :=
  andThen (ev first ctx st) fun a ctx1 st1 =>
    andThen (ev second ctx1 st1) fun b ctx2 st2 =>
      some (.ok (.tuple a b), ctx2, st2)

/-- `eval_first` from `interpreter.rs`. -/
def evalFirst (ev : EvalFn) (value : Term) (loc : Location) (ctx : Context)
    (st : EvalState) : EvalRes :=
  andThen (ev value ctx st) fun v ctx1 st1 =>
    match v with
    | .tuple a _ => some (.ok a, ctx1, st1)
    | _ => some (.err { message := "invalid expression",
                        full_text := "cannot use first operation from anything but a tuple",
                        location := loc }, ctx1, st1)

/-- `eval_second` from `interpreter.rs`. -/
def evalSecond (ev : EvalFn) (value : Term) (loc : Location) (ctx : Context)
    (st : EvalState) : EvalRes :=
  andThen (ev value ctx st) fun v ctx1 st1 =>
    match v with
    | .tuple _ b => some (.ok b, ctx1, st1)
    | _ => some (.err { message := "invalid expression",
                        full_text := "cannot use second operation from anything but a tuple",
                        location := loc }, ctx1, st1)

/-- `eval_print` from `interpreter.rs`: evaluate, emit the display form
through the Printer capability (one line appended to the trace), return the
value unchanged. -/
def evalPrint (ev : EvalFn) (value : Term) (ctx : Context) (st : EvalState) :
    EvalRes :=
  andThen (ev value ctx st) fun v ctx1 st1 =>
    some (.ok v, ctx1, { st1 with out := st1.out ++ [v.display] })

/-- `eval_function` from `interpreter.rs`: clone the current context into a
fresh shared cell (`Rc::new(RefCell::new(context.clone()))` = a new arena
entry) and return the closure; the body is not evaluated. -/
def evalFunction (params : List Var) (value : Term) (ctx : Context)
    (st : EvalState) : EvalRes :=
  some (.ok (.closure params value st.envs.length), ctx,
        { st with envs := st.envs ++ [ctx] })

/-- `eval` from `interpreter.rs`: the recursive dispatcher, with fuel for the
host call stack. -/
def eval : Nat → Term → Context → EvalState → EvalRes
  | 0, _, _, _ => none
  | fuel + 1, t, ctx, st =>
    match t with
    | .letE name value next _ => evalLet (eval fuel) name value next ctx st
    | .int n _ => some (.ok (.int n), ctx, st)
    | .str s _ => some (.ok (.str s), ctx, st)
    | .bool b _ => some (.ok (.bool b), ctx, st)
    | .function ps v _ => evalFunction ps v ctx st
    | .call c args loc => evalCall (eval fuel) c args loc ctx st
    | .ifE c th el _ => evalIf (eval fuel) c th el ctx st
    | .binary l op r loc => evalBinary (eval fuel) l op r loc ctx st
    | .var v => evalVar v ctx st
    | .tuple a b _ => evalTuple (eval fuel) a b ctx st
    | .first v loc => evalFirst (eval fuel) v loc ctx st
    | .second v loc => evalSecond (eval fuel) v loc ctx st
    | .print v _ => evalPrint (eval fuel) v ctx st

/-- The state at the start of a run: no captured cells, empty cache, no
output. -/
def initState : EvalState := { envs := [], cache := [], out := [] }

/-- The outcome of running a whole program from an empty environment. -/
def runOutcome (fuel : Nat) (t : Term) : Option Outcome :=
  (eval fuel t [] initState).map fun r => r.1

/-- The ordered printed output of running a whole program from an empty
environment. -/
def runTrace (fuel : Nat) (t : Term) : Option (List String) :=
  (eval fuel t [] initState).map fun r => r.2.2.out

/-! ## Test fixtures: concrete programs used by witnesses and counterexamples -/

/-- A fixed location for the concrete test programs. -/
def L : Location := ⟨0, 0, "test"⟩

/-- Integer literal node at `L`. -/
def tInt (n : Int) : Term := .int n L

/-- Variable reference node at `L`. -/
def tVar (s : String) : Term := .var ⟨s, L⟩

/-- Let node at `L`. -/
def tLet (n : String) (v nx : Term) : Term := .letE ⟨n, L⟩ v nx L

/-- Function node at `L`. -/
def tFn (ps : List String) (b : Term) : Term := .function (ps.map (⟨·, L⟩)) b L

/-- Call node at `L`. -/
def tCall (c : Term) (args : List Term) : Term := .call c args L

/-- Print node at `L`. -/
def tPrint (v : Term) : Term := .print v L

/-- Tuple node at `L`. -/
def tTup (a b : Term) : Term := .tuple a b L

/-- Binary node at `L`. -/
def tBin (a : Term) (op : BinaryOp) (b : Term) : Term := .binary a op b L

/-- `let k = fn() => x in let x = 5 in k()`: the defining scope binds `x`
after the closure is created; under capture-by-shared-reference the call
would see `x = 5`, under the source's capture-by-clone it does not. -/
def c1Prog : Term :=
  tLet "k" (tFn [] (tVar "x")) (tLet "x" (tInt 5) (tCall (tVar "k") []))

/-- `(let x = 1 in x) + x`: the right operand reads `x` after the `Let` of
the left operand has completed. -/
def c2Prog : Term :=
  tBin (tLet "x" (tInt 1) (tVar "x")) .add (tVar "x")

/-- `let f = fn(n) => if n == 0 then 1 else n * f(n - 1) in f(4)`:
recursion through the `Let` self-reference patch. -/
def facProg : Term :=
  tLet "f" (tFn ["n"] (.ifE (tBin (tVar "n") .eq (tInt 0)) (tInt 1)
      (tBin (tVar "n") .mul (tCall (tVar "f") [tBin (tVar "n") .sub (tInt 1)])) L))
    (tCall (tVar "f") [tInt 4])

/-- `let f = fn(n) => (let _ = print(5) in n) in (f(1), f(1))`: a shallowly
pure body with a print inside, called twice with equal arguments. -/
def memoProg : Term :=
  tLet "f" (tFn ["n"] (tLet "_" (tPrint (tInt 5)) (tVar "n")))
    (tTup (tCall (tVar "f") [tInt 1]) (tCall (tVar "f") [tInt 1]))

/-- `let g = fn(x) => (let _ = print(8) in 1) in let h = fn(y) => y in
(g(h), g(h))`: a closure-valued argument on every call. -/
def bypassProg : Term :=
  tLet "g" (tFn ["x"] (tLet "_" (tPrint (tInt 8)) (tInt 1)))
    (tLet "h" (tFn ["y"] (tVar "y"))
      (tTup (tCall (tVar "g") [tVar "h"]) (tCall (tVar "g") [tVar "h"])))

/-- `(fn(a) => a)(1, print(99))`: one parameter, two arguments — the surplus
argument contains a print. -/
def surplusArgProg : Term :=
  tCall (tFn ["a"] (tVar "a")) [tInt 1, tPrint (tInt 99)]

/-- `(fn(a, b) => 7)(1)`: two parameters, one argument. -/
def missingArgProg : Term :=
  tCall (tFn ["a", "b"] (tInt 7)) [tInt 1]

/-- `let g = fn() => 0 in let f = fn(p) => (let _ = print(5) in 1) in
(f((g, 1)), f((g, 1)))`: each argument is a tuple holding a closure. -/
def nestedClosureProg : Term :=
  tLet "g" (tFn [] (tInt 0))
    (tLet "f" (tFn ["p"] (tLet "_" (tPrint (tInt 5)) (tInt 1)))
      (tTup (tCall (tVar "f") [tTup (tVar "g") (tInt 1)])
            (tCall (tVar "f") [tTup (tVar "g") (tInt 1)])))

/-! ## Claim C6: the shallow purity predicate -/

/-- C6: `Term::is_pure` is exactly the shallow rule — `Print` is impure, a
`Function` is pure iff its body is pure by the same rule, and every other
node kind is pure regardless of its subexpressions. -/
theorem claim_c6 :
    (∀ v l, Term.is_pure (.print v l) = false)
    ∧ (∀ ps v l, Term.is_pure (.function ps v l) = Term.is_pure v)
    ∧ (∀ n l, Term.is_pure (.int n l) = true)
    ∧ (∀ s l, Term.is_pure (.str s l) = true)
    ∧ (∀ b l, Term.is_pure (.bool b l) = true)
    ∧ (∀ v, Term.is_pure (.var v) = true)
    ∧ (∀ n v nx l, Term.is_pure (.letE n v nx l) = true)
    ∧ (∀ c t e l, Term.is_pure (.ifE c t e l) = true)
    ∧ (∀ a op b l, Term.is_pure (.binary a op b l) = true)
    ∧ (∀ c args l, Term.is_pure (.call c args l) = true)
    ∧ (∀ a b l, Term.is_pure (.tuple a b l) = true)
    ∧ (∀ v l, Term.is_pure (.first v l) = true)
    ∧ (∀ v l, Term.is_pure (.second v l) = true) :=
  ⟨fun _ _ => rfl, fun _ _ _ => rfl, fun _ _ => rfl, fun _ _ => rfl,
   fun _ _ => rfl, fun _ => rfl, fun _ _ _ _ => rfl, fun _ _ _ _ => rfl,
   fun _ _ _ _ => rfl, fun _ _ _ => rfl, fun _ _ _ => rfl, fun _ _ => rfl,
   fun _ _ => rfl⟩

/-! ## Claim C4: the value hash is display-based on tuples -/

/-- C4 counterexample: `Tuple(Int 1, Int 2)` and `Tuple(Str "1", Int 2)` are
structurally distinct tuples whose components have distinct digests, yet
they receive the same digest — the tuple digest is not determined by the
components' recursive digests. -/
theorem claim_c4_ce :
    hashValue (.tuple (.int 1) (.int 2)) = hashValue (.tuple (.str "1") (.int 2))
    ∧ hashValue (.int 1) ≠ hashValue (.str "1") :=
  ⟨rfl, by decide⟩

/-- C4 amended: the hash is deterministic and structural for `Int`, `Str`
and `Bool`, but a `Tuple` is hashed via its display form: the digest of
`Tuple(a, b)` is the string built from the display of the components
(strings verbatim, closures as the placeholder), so it is determined by the
component display forms, not by the component digests. -/
theorem claim_c4 :
    (∀ a b : Value,
      hashValue (.tuple a b)
        = .digest ("Tuple(" ++ ("(" ++ a.display ++ ", " ++ b.display ++ ")") ++ ")"))
    ∧ (∀ a b a2 b2 : Value, a.display = a2.display → b.display = b2.display →
        hashValue (.tuple a b) = hashValue (.tuple a2 b2)) := by
  constructor
  · intro a b
    rfl
  · intro a b a2 b2 ha hb
    simp [hashValue, Value.display, ha, hb]

/-- C4 witness: the amended determinism applied at the counterexample pair. -/
theorem claim_c4_w :
    hashValue (.tuple (.int 1) (.int 2)) = hashValue (.tuple (.str "1") (.int 2)) :=
  claim_c4.2 (.int 1) (.int 2) (.str "1") (.int 2) rfl rfl

/-! ## Claim C1: closure capture is clone-into-fresh-cell, not shared -/

/-- C1 counterexample: in `c1Prog` the binding `x -> 5` is inserted into the
defining scope after the closure `k` is created; calling `k` then fails with
`UnboundVariable` — the mutation is not visible inside the closure body, so
capture is not by shared reference to the defining scope. -/
theorem claim_c1_ce :
    runOutcome 10 c1Prog
      = some (.err ⟨"unbound variable \"x\"",
                    "variable \"x\" was not defined in the current scope", L⟩) := rfl

/-- C1 amended: evaluating a `Function` node clones the current environment
into a fresh shared cell (a new arena entry holding the current context) and
returns the closure without evaluating the body; the defining scope's own
map is left in place, so later insertions into it are not visible through
the captured cell (only mutations of the cell itself — the `Let`
self-reference patch — are shared). -/
theorem claim_c1 :
    ∀ (fuel : Nat) (ps : List Var) (v : Term) (loc : Location) (ctx : Context)
      (st : EvalState),
      eval (fuel + 1) (.function ps v loc) ctx st
        = some (.ok (.closure ps v st.envs.length), ctx,
                { st with envs := st.envs ++ [ctx] }) :=
  fun _ _ _ _ _ _ => rfl

/-! ## Claim C2: Let bindings persist in the enclosing environment -/

/-- C2 counterexample: in `(let x = 1 in x) + x` the second `x` is evaluated
in the enclosing environment after the `Let` completed, and it is still
bound — the program evaluates to `2` instead of failing with
`UnboundVariable`. -/
theorem claim_c2_ce :
    runOutcome 10 c2Prog = some (.ok (.int 2)) := rfl

/-- C2 amended: `eval_let` inserts the binding into the enclosing
environment in place and never removes it: the `Let` evaluates `next` in the
extended enclosing context, and the context it hands back is whatever `next`
hands back (no restoration), so the binding stays visible to later
evaluation in the same frame — e.g. the rhs of a `Binary` whose lhs is a
`Let` still sees the name.  Bindings are discarded only with a `Call`
frame's fresh context. -/
theorem claim_c2 :
    (∀ (fuel : Nat) (name : Var) (value next : Term) (l : Location)
       (ctx : Context) (st : EvalState) (v : Value) (ctx1 : Context)
       (st1 : EvalState),
       eval fuel value ctx st = some (.ok v, ctx1, st1) →
       v.isClosure = false →
       eval (fuel + 1) (.letE name value next l) ctx st
         = eval fuel next (ctxInsert ctx1 name.text v) st1)
    ∧ (∀ (fuel : Nat) (n : String) (k : Int),
       runOutcome (fuel + 3) (tBin (tLet n (tInt k) (tVar n)) .add (tVar n))
         = some (.ok (.int (k + k)))) := by
  constructor
  · intro fuel name value next l ctx st v ctx1 st1 h hv
    cases v with
    | closure ps b c => simp [Value.isClosure] at hv
    | int n => simp [eval, evalLet, andThen, h]
    | str s => simp [eval, evalLet, andThen, h]
    | bool b => simp [eval, evalLet, andThen, h]
    | tuple a b => simp [eval, evalLet, andThen, h]
  · intro fuel n k
    simp [runOutcome, eval, evalBinary, evalLet, evalVar, andThen, ctxInsert,
          assocGet, binaryOp, tBin, tLet, tVar, tInt, initState]

/-- C2 witness: the amended unfolding applied at `let y = 1 in 2`. -/
theorem claim_c2_w :
    eval 2 (tLet "y" (tInt 1) (tInt 2)) [] initState
      = eval 1 (tInt 2) (ctxInsert [] "y" (.int 1)) initState :=
  claim_c2.1 1 ⟨"y", L⟩ (tInt 1) (tInt 2) L [] initState (.int 1) [] initState rfl rfl

/-! ## Claim C7: division and remainder by zero (spec-modelled operator) -/

/-- C7: when both operands of a `Div` or `Rem` reduce to integers and the
divisor is zero, evaluation of the `Binary` node yields the dedicated
`InvalidOperand`-class runtime error (a typed error value), at the node's
location. -/
theorem claim_c7 :
    (∀ (fuel : Nat) (lhs rhs : Term) (loc : Location) (ctx : Context)
       (st : EvalState) (a : Int) (ctx1 : Context) (st1 : EvalState)
       (ctx2 : Context) (st2 : EvalState),
       eval fuel lhs ctx st = some (.ok (.int a), ctx1, st1) →
       eval fuel rhs ctx1 st1 = some (.ok (.int 0), ctx2, st2) →
       eval (fuel + 1) (.binary lhs .div rhs loc) ctx st
         = some (.err (invalidOperand loc "division by zero"), ctx2, st2))
    ∧ (∀ (fuel : Nat) (lhs rhs : Term) (loc : Location) (ctx : Context)
       (st : EvalState) (a : Int) (ctx1 : Context) (st1 : EvalState)
       (ctx2 : Context) (st2 : EvalState),
       eval fuel lhs ctx st = some (.ok (.int a), ctx1, st1) →
       eval fuel rhs ctx1 st1 = some (.ok (.int 0), ctx2, st2) →
       eval (fuel + 1) (.binary lhs .rem rhs loc) ctx st
         = some (.err (invalidOperand loc "remainder by zero"), ctx2, st2)) := by
  constructor
  · intro fuel lhs rhs loc ctx st a ctx1 st1 ctx2 st2 h1 h2
    simp [eval, evalBinary, andThen, h1, h2, binaryOp]
  · intro fuel lhs rhs loc ctx st a ctx1 st1 ctx2 st2 h1 h2
    simp [eval, evalBinary, andThen, h1, h2, binaryOp]

/-- C7 witness: `1 / 0` fails with the division-by-zero error. -/
theorem claim_c7_w :
    eval 2 (tBin (tInt 1) .div (tInt 0)) [] initState
      = some (.err (invalidOperand L "division by zero"), [], initState) :=
  claim_c7.1 1 (tInt 1) (tInt 0) L [] initState 1 [] initState [] initState rfl rfl

/-! ## Claim C8: the Let self-reference patch -/

/-- C8: when the bound value of a `Let` evaluates to a closure, the binding
`name -> closure` is inserted both into the closure's own captured cell and
into the enclosing context before `next` is evaluated; concretely, a
function bound via `Let` can call itself by its bound name (`facProg`
computes `4! = 24` through recursive self-calls). -/
theorem claim_c8 :
    (∀ (fuel : Nat) (name : Var) (value next : Term) (l : Location)
       (ctx : Context) (st : EvalState) (ps : List Var) (body : Term)
       (cell : Nat) (ctx1 : Context) (st1 : EvalState),
       eval fuel value ctx st = some (.ok (.closure ps body cell), ctx1, st1) →
       eval (fuel + 1) (.letE name value next l) ctx st
         = eval fuel next (ctxInsert ctx1 name.text (.closure ps body cell))
             { st1 with
               envs := patchCell st1.envs cell name.text (.closure ps body cell) })
    ∧ runOutcome 60 facProg = some (.ok (.int 24)) := by
  constructor
  · intro fuel name value next l ctx st ps body cell ctx1 st1 h
    simp [eval, evalLet, andThen, h]
  · rfl

/-- C8 witness: the patch equation applied at `let f = fn() => 0 in f`. -/
theorem claim_c8_w :
    eval 2 (tLet "f" (tFn [] (tInt 0)) (tVar "f")) [] initState
      = eval 1 (tVar "f") (ctxInsert [] "f" (.closure [] (tInt 0) 0))
          { envs := [ctxInsert [] "f" (.closure [] (tInt 0) 0)], cache := [], out := [] } :=
  claim_c8.1 1 ⟨"f", L⟩ (tFn [] (tInt 0)) (tVar "f") L [] initState [] (tInt 0) 0 []
    { envs := [[]], cache := [], out := [] } rfl

/-! ## Claim C9: silent arity mismatch -/

/-- Zipping ignores list elements beyond the other list's length. -/
theorem zip_take_len {α β : Type} (ps : List α) (ts : List β) :
    ps.zip (ts.take ps.length) = ps.zip ts := by
  induction ps generalizing ts with
  | nil => rfl
  | cons p ps ih =>
    cases ts with
    | nil => rfl
    | cons t ts => simp [List.zip_cons_cons, ih]

/-- Symmetric version of `zip_take_len`. -/
theorem take_zip_len {α β : Type} (ps : List α) (ts : List β) :
    (ps.take ts.length).zip ts = ps.zip ts := by
  induction ps generalizing ts with
  | nil => simp
  | cons p ps ih =>
    cases ts with
    | nil => rfl
    | cons t ts => simp [List.zip_cons_cons, ih]

/-- C9: arity mismatch between a closure's parameters and a call's arguments
is tolerated silently — only `min`-many pairs are bound, in order: a call
with surplus arguments evaluates exactly like the call with the argument
list truncated to the parameter count (surplus argument expressions are not
even evaluated), the parameter/argument loop with surplus parameters runs
exactly like with the parameter list truncated to the argument count, and
concretely neither surplus (`surplusArgProg`, whose surplus argument is a
`print` that leaves no trace) nor missing (`missingArgProg`) arguments raise
an error. -/
theorem claim_c9 :
    (∀ (fuel : Nat) (callee : Term) (argTerms : List Term) (loc : Location)
       (ctx : Context) (st : EvalState) (ps : List Var) (body : Term)
       (cell : Nat) (ctx1 : Context) (st1 : EvalState),
       eval fuel callee ctx st = some (.ok (.closure ps body cell), ctx1, st1) →
       eval (fuel + 1) (.call callee argTerms loc) ctx st
         = eval (fuel + 1) (.call callee (argTerms.take ps.length) loc) ctx st)
    ∧ (∀ (ev : EvalFn) (ps : List Var) (argTerms : List Term) (nc ctx : Context)
       (st : EvalState),
       evalParamArgs ev (ps.zip argTerms) nc ctx st
         = evalParamArgs ev ((ps.take argTerms.length).zip argTerms) nc ctx st)
    ∧ runOutcome 20 surplusArgProg = some (.ok (.int 1))
    ∧ runTrace 20 surplusArgProg = some []
    ∧ runOutcome 20 missingArgProg = some (.ok (.int 7)) := by
  refine ⟨?_, ?_, rfl, rfl, rfl⟩
  · intro fuel callee argTerms loc ctx st ps body cell ctx1 st1 h
    simp [eval, evalCall, andThen, h, zip_take_len]
  · intro ev ps argTerms nc ctx st
    rw [take_zip_len]

/-- C9 witness: the truncation equation applied at a one-parameter closure
called with two arguments. -/
theorem claim_c9_w :
    eval 2 (tCall (tFn ["a"] (tVar "a")) [tInt 1, tPrint (tInt 99)]) [] initState
      = eval 2 (tCall (tFn ["a"] (tVar "a")) [tInt 1]) [] initState :=
  claim_c9.1 1 (tFn ["a"] (tVar "a")) [tInt 1, tPrint (tInt 99)] L [] initState
    [⟨"a", L⟩] (tVar "a") 0 [] { envs := [[]], cache := [], out := [] } rfl

/-! ## Claim C10: closures nested in tuples do not bypass the cache -/

/-- Hashing any non-closure value succeeds with a digest (in particular a
tuple that merely contains a closure, which is rendered through the display
placeholder). -/
theorem hashValue_nonclosure (v : Value) (h : v.isClosure = false) :
    ∃ d, hashValue v = .digest d := by
  cases v with
  | closure ps b c => simp [Value.isClosure] at h
  | int n => exact ⟨_, rfl⟩
  | str s => exact ⟨_, rfl⟩
  | bool b => exact ⟨_, rfl⟩
  | tuple a b => exact ⟨_, rfl⟩

/-- When no argument is a closure at top level, the per-argument digest
computation succeeds. -/
theorem argDigests_nonclosure (vs : List Value)
    (h : ∀ a ∈ vs, a.isClosure = false) :
    ∃ ds, argDigests vs = .ok (some ds) := by
  induction vs with
  | nil => exact ⟨[], rfl⟩
  | cons v vs ih =>
    obtain ⟨ds, hds⟩ := ih fun a ha => h a (List.mem_cons_of_mem v ha)
    have hv := h v (List.mem_cons_self v vs)
    cases v with
    | closure ps b c => simp [Value.isClosure] at hv
    | int n =>
        exact ⟨("Int(" ++ toString n ++ ")") :: ds, by simp [argDigests, hashValue, hds]⟩
    | str s =>
        exact ⟨("Str(" ++ s ++ ")") :: ds, by simp [argDigests, hashValue, hds]⟩
    | bool b =>
        exact ⟨("Bool(" ++ toString b ++ ")") :: ds, by simp [argDigests, hashValue, hds]⟩
    | tuple a b =>
        exact ⟨("Tuple(" ++ (Value.tuple a b).display ++ ")") :: ds,
               by simp [argDigests, hashValue, hds]⟩

/-- C10: a call whose argument values are not closures at top level always
gets a cache key, even when an argument is a tuple with a closure component:
the tuple is hashed through its display form, in which every closure renders
as the fixed placeholder; concretely `nestedClosureProg` (both arguments are
tuples holding a closure) is memoized — its shallowly pure body with a print
runs once for the two calls. -/
theorem claim_c10 :
    (∀ (body : Term) (args : List Value), (∀ a ∈ args, a.isClosure = false) →
       ∃ k, cacheKey body args = .ok (some k))
    ∧ (∀ (ps : List Var) (b : Term) (i : Nat) (x : Value),
       hashValue (.tuple (.closure ps b i) x)
         = .digest ("Tuple(" ++ ("(" ++ "[closure]" ++ ", " ++ x.display ++ ")") ++ ")"))
    ∧ runTrace 40 nestedClosureProg = some ["5"]
    ∧ runOutcome 40 nestedClosureProg = some (.ok (.tuple (.int 1) (.int 1))) := by
  refine ⟨?_, fun ps b i x => rfl, rfl, rfl⟩
  intro body args h
  obtain ⟨ds, hds⟩ := argDigests_nonclosure args h
  exact ⟨"Key(" ++ reprTerm body ++ "|" ++ String.intercalate "," ds ++ ")",
         by simp [cacheKey, hds]⟩

/-- C10 witness: the key computation applied at one tuple-with-closure
argument. -/
theorem claim_c10_w :
    ∃ k, cacheKey (tInt 0) [.tuple (.closure [] (tInt 0) 0) (.int 1)]
      = .ok (some k) :=
  claim_c10.1 (tInt 0) [.tuple (.closure [] (tInt 0) 0) (.int 1)]
    (by intro a ha; simp at ha; subst ha; rfl)

/-! ## Claim C5: memoization transparency -/

/-- `eval_memo` under a key that resolved to `Some`: the panic and bypass
branches are gone, only the cache lookup remains. -/
theorem evalMemo_eq_of_key (ev : EvalFn) (body : Term) (args : List Value)
    (key : String) (ctx : Context) (st : EvalState)
    (hk : cacheKey body args = .ok (some key)) :
    evalMemo ev body args ctx st
      = match assocGet st.cache key with
        | some cached => some (.ok cached, ctx, st)
        | none =>
            andThen (ev body ctx st) fun v ctx1 st1 =>
              some (.ok v, ctx1, { st1 with cache := (key, v) :: st1.cache }) := by
  unfold evalMemo
  rw [hk]

/-- After a successful `eval_memo` run whose key resolved to `Some`, the
cache maps that key to the returned value (a hit already did, a miss just
stored it). -/
theorem evalMemo_caches (ev : EvalFn) (body : Term) (args : List Value)
    (key : String) (ctx : Context) (st : EvalState) (v : Value)
    (ctx1 : Context) (st1 : EvalState)
    (hk : cacheKey body args = .ok (some key))
    (h : evalMemo ev body args ctx st = some (.ok v, ctx1, st1)) :
    assocGet st1.cache key = some v := by
  rw [evalMemo_eq_of_key ev body args key ctx st hk] at h
  cases hc : assocGet st.cache key with
  | some cached =>
      rw [hc] at h
      simp only [Option.some.injEq, Prod.mk.injEq, Outcome.ok.injEq] at h
      obtain ⟨h1, _, h3⟩ := h
      rw [← h3, ← h1]
      exact hc
  | none =>
      rw [hc] at h
      cases hr : ev body ctx st with
      | none => rw [hr] at h; simp [andThen] at h
      | some trip =>
          obtain ⟨o, c, s⟩ := trip
          rw [hr] at h
          cases o with
          | ok v0 =>
              simp only [andThen, Option.some.injEq, Prod.mk.injEq,
                         Outcome.ok.injEq] at h
              obtain ⟨h1, _, h3⟩ := h
              rw [← h3]
              simp [assocGet, h1]
          | err e => simp [andThen] at h
          | panics => simp [andThen] at h

/-- C5: (1) after a first successful memoized call whose key resolved to
`Some`, repeating the call with the same body and value-equal (identical)
argument values returns the same value and leaves the state — cache, arena
and printed trace — untouched, for any context and even for an evaluator
with no fuel at all: the body is not re-executed and no side effect repeats;
(2) whenever some argument value is a top-level closure, `eval_memo` is
exactly direct evaluation of the body — the cache is bypassed on every such
call; concretely (3) `memoProg` calls a shallowly pure closure with a print
inside twice and prints once, returning `(1, 1)`, while (4) `bypassProg`
passes a closure argument twice and prints twice. -/
theorem claim_c5 :
    (∀ (ev ev2 : EvalFn) (body : Term) (args : List Value) (key : String)
       (ctx : Context) (st : EvalState) (v : Value) (ctx1 : Context)
       (st1 : EvalState) (ctx2 : Context),
       cacheKey body args = .ok (some key) →
       evalMemo ev body args ctx st = some (.ok v, ctx1, st1) →
       evalMemo ev2 body args ctx2 st1 = some (.ok v, ctx2, st1))
    ∧ (∀ (ev : EvalFn) (body : Term) (args : List Value) (ctx : Context)
       (st : EvalState), (∃ a ∈ args, a.isClosure = true) →
       evalMemo ev body args ctx st = ev body ctx st)
    ∧ runTrace 30 memoProg = some ["5"]
    ∧ runOutcome 30 memoProg = some (.ok (.tuple (.int 1) (.int 1)))
    ∧ runTrace 30 bypassProg = some ["8", "8"] := by
  refine ⟨?_, ?_, rfl, rfl, rfl⟩
  · intro ev ev2 body args key ctx st v ctx1 st1 ctx2 hk h
    have hcache := evalMemo_caches ev body args key ctx st v ctx1 st1 hk h
    rw [evalMemo_eq_of_key ev2 body args key ctx2 st1 hk, hcache]
  · intro ev body args ctx st h
    have hd : argDigests args = .ok none := by
      obtain ⟨a, ha, hcl⟩ := h
      induction args with
      | nil => simp at ha
      | cons w ws ih =>
          rcases List.mem_cons.mp ha with rfl | hmem
          · cases a with
            | closure ps b c => simp [argDigests]
            | int n => simp [Value.isClosure] at hcl
            | str s => simp [Value.isClosure] at hcl
            | bool b => simp [Value.isClosure] at hcl
            | tuple x y => simp [Value.isClosure] at hcl
          · cases w with
            | closure ps b c => simp [argDigests]
            | int n => simp [argDigests, hashValue, ih hmem]
            | str s => simp [argDigests, hashValue, ih hmem]
            | bool b => simp [argDigests, hashValue, ih hmem]
            | tuple x y => simp [argDigests, hashValue, ih hmem]
    unfold evalMemo cacheKey
    rw [hd]

/-- The concrete state after the first memoized call of the C5 witness:
the cache holds the key of body `n` at argument `1`. -/
def c5CachedState : EvalState :=
  { envs := [], cache := [("Key(TVar(Var(n@Loc(0,0,test)))|Int(1))", .int 1)],
    out := [] }

/-- C5 witness: after `evalMemo (eval 2)` evaluates body `n` at argument `1`
(a miss that stores the result), repeating the call against the resulting
cache returns the cached `1` with the state unchanged, under an evaluator
with zero fuel. -/
theorem claim_c5_w :
    evalMemo (eval 0) (tVar "n") [.int 1] [] c5CachedState
      = some (.ok (.int 1), [], c5CachedState) :=
  claim_c5.1 (eval 2) (eval 0) (tVar "n") [.int 1]
    "Key(TVar(Var(n@Loc(0,0,test)))|Int(1))" [("n", .int 1)] initState
    (.int 1) [("n", .int 1)] c5CachedState [] rfl rfl

/-! ## Claim C3: the hashing panic cannot be reached by evaluation -/

/-- Hashing never lets the panic escape through the per-argument digest
computation of `cache_key`: every argument is tested for being a closure
before it is hashed, and hashing a non-closure succeeds. -/
theorem argDigests_ne_error (vs : List Value) : argDigests vs ≠ .error () := by
  induction vs with
  | nil => simp [argDigests]
  | cons v vs ih =>
      cases hd : argDigests vs with
      | error e => cases e; exact absurd hd ih
      | ok o =>
          cases v with
          | closure ps b c => simp [argDigests]
          | int n => cases o <;> simp [argDigests, hashValue, hd]
          | str s => cases o <;> simp [argDigests, hashValue, hd]
          | bool b => cases o <;> simp [argDigests, hashValue, hd]
          | tuple a b => cases o <;> simp [argDigests, hashValue, hd]

/-- The cache-key computation never panics. -/
theorem cacheKey_ne_error (body : Term) (args : List Value) :
    cacheKey body args ≠ .error () := by
  cases hd : argDigests args with
  | error e => cases e; exact absurd hd (argDigests_ne_error args)
  | ok o => cases o <;> simp [cacheKey, hd]

/-- An evaluation result that never carries the panic outcome. -/
def ResNoPanic (r : EvalRes) : Prop :=
  ∀ o c s, r = some (o, c, s) → o ≠ Outcome.panics

/-- An evaluator all of whose results are panic-free. -/
def NoPanic (f : EvalFn) : Prop :=
  ∀ t ctx st, ResNoPanic (f t ctx st)

/-- A success outcome is not a panic. -/
theorem ok_ne_panics (v : Value) : Outcome.ok v ≠ Outcome.panics :=
  fun h => Outcome.noConfusion h

/-- An error outcome is not a panic. -/
theorem err_ne_panics (e : RuntimeError) : Outcome.err e ≠ Outcome.panics :=
  fun h => Outcome.noConfusion h

/-- A literal success result is panic-free. -/
theorem resNoPanic_ok (v : Value) (c : Context) (s : EvalState) :
    ResNoPanic (some (.ok v, c, s)) := by
  intro o c2 s2 h
  simp only [Option.some.injEq, Prod.mk.injEq] at h
  obtain ⟨rfl, -, -⟩ := h
  exact ok_ne_panics v

/-- A literal error result is panic-free. -/
theorem resNoPanic_err (e : RuntimeError) (c : Context) (s : EvalState) :
    ResNoPanic (some (.err e, c, s)) := by
  intro o c2 s2 h
  simp only [Option.some.injEq, Prod.mk.injEq] at h
  obtain ⟨rfl, -, -⟩ := h
  exact err_ne_panics e

/-- `andThen` preserves panic-freedom. -/
theorem resNoPanic_andThen (r : EvalRes) (k : Value → Context → EvalState → EvalRes)
    (hr : ResNoPanic r) (hk : ∀ v ctx st, ResNoPanic (k v ctx st)) :
    ResNoPanic (andThen r k) := by
  cases r with
  | none => intro o c s h; simp [andThen] at h
  | some trip =>
      obtain ⟨o1, c1, s1⟩ := trip
      cases o1 with
      | ok v => exact hk v c1 s1
      | err e => exact resNoPanic_err e c1 s1
      | panics => exact absurd rfl (hr _ _ _ rfl)

/-- `eval_let` preserves panic-freedom. -/
theorem noPanic_evalLet (ev : EvalFn) (hev : NoPanic ev) (name : Var)
    (value next : Term) (ctx : Context) (st : EvalState) :
    ResNoPanic (evalLet ev name value next ctx st) := by
  unfold evalLet
  apply resNoPanic_andThen _ _ (hev value ctx st)
  intro v ctx1 st1
  cases v with
  | closure ps b c => exact hev next _ _
  | int n => exact hev next _ _
  | str s => exact hev next _ _
  | bool b => exact hev next _ _
  | tuple a b => exact hev next _ _

/-- `eval_memo` preserves panic-freedom: its only panic branch needs
`cache_key` to panic, which `cacheKey_ne_error` rules out. -/
theorem noPanic_evalMemo (ev : EvalFn) (hev : NoPanic ev) (body : Term)
    (args : List Value) (ctx : Context) (st : EvalState) :
    ResNoPanic (evalMemo ev body args ctx st) := by
  cases hk : cacheKey body args with
  | error e => cases e; exact absurd hk (cacheKey_ne_error body args)
  | ok o =>
      cases o with
      | none =>
          have hbypass : evalMemo ev body args ctx st = ev body ctx st := by
            unfold evalMemo
            rw [hk]
          rw [hbypass]
          exact hev body ctx st
      | some key =>
          rw [evalMemo_eq_of_key ev body args key ctx st hk]
          cases hc : assocGet st.cache key with
          | some cached => exact resNoPanic_ok cached ctx st
          | none =>
              apply resNoPanic_andThen _ _ (hev body ctx st)
              intro v ctx1 st1
              exact resNoPanic_ok v ctx1 _

/-- `eval_if` preserves panic-freedom. -/
theorem noPanic_evalIf (ev : EvalFn) (hev : NoPanic ev) (condition then_ otherwise : Term)
    (ctx : Context) (st : EvalState) :
    ResNoPanic (evalIf ev condition then_ otherwise ctx st) := by
  unfold evalIf
  apply resNoPanic_andThen _ _ (hev condition ctx st)
  intro v ctx1 st1
  cases v with
  | closure ps b c => exact resNoPanic_err _ _ _
  | int n => exact resNoPanic_err _ _ _
  | str s => exact resNoPanic_err _ _ _
  | bool b => cases b <;> exact hev _ _ _
  | tuple a b => exact resNoPanic_err _ _ _

/-- `eval_binary` preserves panic-freedom. -/
theorem noPanic_evalBinary (ev : EvalFn) (hev : NoPanic ev) (lhs : Term)
    (op : BinaryOp) (rhs : Term) (loc : Location) (ctx : Context) (st : EvalState) :
    ResNoPanic (evalBinary ev lhs op rhs loc ctx st) := by
  unfold evalBinary
  apply resNoPanic_andThen _ _ (hev lhs ctx st)
  intro lv ctx1 st1
  apply resNoPanic_andThen _ _ (hev rhs ctx1 st1)
  intro rv ctx2 st2
  cases binaryOp lv op rv loc with
  | ok v => exact resNoPanic_ok v ctx2 st2
  | error e => exact resNoPanic_err e ctx2 st2

/-- `eval_var` is panic-free. -/
theorem noPanic_evalVar (v : Var) (ctx : Context) (st : EvalState) :
    ResNoPanic (evalVar v ctx st) := by
  unfold evalVar
  cases assocGet ctx v.text with
  | some value => exact resNoPanic_ok value ctx st
  | none => exact resNoPanic_err _ ctx st

/-- `eval_tuple` preserves panic-freedom. -/
theorem noPanic_evalTuple (ev : EvalFn) (hev : NoPanic ev) (first second : Term)
    (ctx : Context) (st : EvalState) :
    ResNoPanic (evalTuple ev first second ctx st) := by
  unfold evalTuple
  apply resNoPanic_andThen _ _ (hev first ctx st)
  intro a ctx1 st1
  apply resNoPanic_andThen _ _ (hev second ctx1 st1)
  intro b ctx2 st2
  exact resNoPanic_ok _ ctx2 st2

/-- `eval_first` preserves panic-freedom. -/
theorem noPanic_evalFirst (ev : EvalFn) (hev : NoPanic ev) (value : Term)
    (loc : Location) (ctx : Context) (st : EvalState) :
    ResNoPanic (evalFirst ev value loc ctx st) := by
  unfold evalFirst
  apply resNoPanic_andThen _ _ (hev value ctx st)
  intro v ctx1 st1
  cases v with
  | closure ps b c => exact resNoPanic_err _ _ _
  | int n => exact resNoPanic_err _ _ _
  | str s => exact resNoPanic_err _ _ _
  | bool b => exact resNoPanic_err _ _ _
  | tuple a b => exact resNoPanic_ok a ctx1 st1

/-- `eval_second` preserves panic-freedom. -/
theorem noPanic_evalSecond (ev : EvalFn) (hev : NoPanic ev) (value : Term)
    (loc : Location) (ctx : Context) (st : EvalState) :
    ResNoPanic (evalSecond ev value loc ctx st) := by
  unfold evalSecond
  apply resNoPanic_andThen _ _ (hev value ctx st)
  intro v ctx1 st1
  cases v with
  | closure ps b c => exact resNoPanic_err _ _ _
  | int n => exact resNoPanic_err _ _ _
  | str s => exact resNoPanic_err _ _ _
  | bool b => exact resNoPanic_err _ _ _
  | tuple a b => exact resNoPanic_ok b ctx1 st1

/-- `eval_print` preserves panic-freedom. -/
theorem noPanic_evalPrint (ev : EvalFn) (hev : NoPanic ev) (value : Term)
    (ctx : Context) (st : EvalState) :
    ResNoPanic (evalPrint ev value ctx st) := by
  unfold evalPrint
  apply resNoPanic_andThen _ _ (hev value ctx st)
  intro v ctx1 st1
  exact resNoPanic_ok v ctx1 _

/-- The parameter/argument loop of `eval_call` preserves panic-freedom. -/
theorem noPanic_evalParamArgs (ev : EvalFn) (hev : NoPanic ev) :
    ∀ (pairs : List (Var × Term)) (nc ctx : Context) (st : EvalState)
      (o : Outcome) (c : Context) (s : EvalState),
      evalParamArgs ev pairs nc ctx st = some (.abnormal o c s) →
      o ≠ Outcome.panics := by
  intro pairs
  induction pairs with
  | nil =>
      intro nc ctx st o c s h
      simp [evalParamArgs] at h
  | cons pa rest ih =>
      obtain ⟨p, a⟩ := pa
      intro nc ctx st o c s h
      unfold evalParamArgs at h
      cases hr : ev a ctx st with
      | none => rw [hr] at h; simp at h
      | some trip =>
          obtain ⟨o1, c1, s1⟩ := trip
          rw [hr] at h
          cases o1 with
          | ok v =>
              dsimp only at h
              cases hrec : evalParamArgs ev rest (ctxInsert nc p.text v) c1 s1 with
              | none => rw [hrec] at h; simp at h
              | some ao =>
                  rw [hrec] at h
                  cases ao with
                  | abnormal o2 c2 s2 =>
                      simp only [Option.some.injEq, ArgsOut.abnormal.injEq] at h
                      obtain ⟨rfl, rfl, rfl⟩ := h
                      exact ih _ _ _ _ _ _ hrec
                  | done vs nc2 c2 s2 => simp at h
          | err e =>
              simp only [Option.some.injEq, ArgsOut.abnormal.injEq] at h
              obtain ⟨rfl, rfl, rfl⟩ := h
              exact err_ne_panics e
          | panics => exact absurd rfl (hev a ctx st _ _ _ hr)

/-- `eval_call` preserves panic-freedom. -/
theorem noPanic_evalCall (ev : EvalFn) (hev : NoPanic ev) (callee : Term)
    (argTerms : List Term) (loc : Location) (ctx : Context) (st : EvalState) :
    ResNoPanic (evalCall ev callee argTerms loc ctx st) := by
  unfold evalCall
  apply resNoPanic_andThen _ _ (hev callee ctx st)
  intro cv ctx1 st1
  cases cv with
  | int n => exact resNoPanic_err _ _ _
  | str s => exact resNoPanic_err _ _ _
  | bool b => exact resNoPanic_err _ _ _
  | tuple a b => exact resNoPanic_err _ _ _
  | closure params body cell =>
      intro o c s h
      dsimp only at h
      cases hpa : evalParamArgs ev (params.zip argTerms) (st1.envs.getD cell []) ctx1 st1 with
      | none => rw [hpa] at h; simp at h
      | some ao =>
          rw [hpa] at h
          cases ao with
          | abnormal o2 c2 s2 =>
              simp only [Option.some.injEq, Prod.mk.injEq] at h
              obtain ⟨rfl, -, -⟩ := h
              exact noPanic_evalParamArgs ev hev _ _ _ _ _ _ _ hpa
          | done args newCtx ctx2 st2 =>
              dsimp only at h
              have hbody : ResNoPanic (if body.is_pure then evalMemo ev body args newCtx st2
                                       else ev body newCtx st2) := by
                cases body.is_pure
                · simpa using hev body newCtx st2
                · simpa using noPanic_evalMemo ev hev body args newCtx st2
              cases hb : (if body.is_pure then evalMemo ev body args newCtx st2
                          else ev body newCtx st2) with
              | none => rw [hb] at h; simp at h
              | some trip =>
                  obtain ⟨o3, c3, s3⟩ := trip
                  rw [hb] at h
                  simp only [Option.some.injEq, Prod.mk.injEq] at h
                  obtain ⟨rfl, -, -⟩ := h
                  exact hbody o3 c3 s3 hb

/-- The evaluator never produces the panic outcome, at any fuel. -/
theorem eval_noPanic : ∀ fuel : Nat, NoPanic (eval fuel) := by
  intro fuel
  induction fuel with
  | zero =>
      intro t ctx st o c s h
      simp [eval] at h
  | succ fuel ih =>
      intro t ctx st
      cases t with
      | letE name value next l => exact noPanic_evalLet (eval fuel) ih name value next ctx st
      | int n l => exact resNoPanic_ok _ ctx st
      | str s l => exact resNoPanic_ok _ ctx st
      | bool b l => exact resNoPanic_ok _ ctx st
      | function ps v l => exact resNoPanic_ok _ ctx _
      | call c args loc => exact noPanic_evalCall (eval fuel) ih c args loc ctx st
      | ifE c th el l => exact noPanic_evalIf (eval fuel) ih c th el ctx st
      | binary a op b loc => exact noPanic_evalBinary (eval fuel) ih a op b loc ctx st
      | var v => exact noPanic_evalVar v ctx st
      | tuple a b l => exact noPanic_evalTuple (eval fuel) ih a b ctx st
      | first v loc => exact noPanic_evalFirst (eval fuel) ih v loc ctx st
      | second v loc => exact noPanic_evalSecond (eval fuel) ih v loc ctx st
      | print v l => exact noPanic_evalPrint (eval fuel) ih v ctx st

/-- C3 counterexample: hashing a `Closure` is the unconditional `panic!` arm
of `impl Hash for Value`, not a recoverable "unhashable value" error. -/
theorem claim_c3_ce : hashValue (.closure [] (tInt 0) 0) = .panics := rfl

/-- C3 amended: hashing a `Closure` is a panic in the code, not a
recoverable error; but the cache-key computation tests every argument for
being a closure before hashing it (treating a closure argument as "skip
memoization") and tuples hash through their display form, so no evaluation
of any input ever reaches the panic — `eval` never returns the panic
outcome, at any fuel, program, environment and state. -/
theorem claim_c3 :
    ∀ (fuel : Nat) (t : Term) (ctx : Context) (st : EvalState) (o : Outcome)
      (c : Context) (s : EvalState),
      eval fuel t ctx st = some (o, c, s) → o ≠ Outcome.panics :=
  fun fuel t ctx st => eval_noPanic fuel t ctx st

/-- C3 witness: the no-panic theorem applied to a concrete run. -/
theorem claim_c3_w : Outcome.ok (Value.int 3) ≠ Outcome.panics :=
  claim_c3 1 (tInt 3) [] initState (.ok (.int 3)) [] initState rfl
